import Mathlib

/-!
Verification development for the error-decoding, classification, name-validation
and transaction-index subsystem of `azure-data-tables`
(file `sdk/tables/azure-data-tables/azure/data/tables/_error.py`).

The Python functions `_decode_error`, `_validate_storage_tablename`,
`_validate_cosmos_tablename`, `_validate_tablename_error`,
`_process_table_error` and `TableTransactionError._extract_index` are embedded
shallowly: pure data is modelled by inductive types, Python exceptions by an
`Except` result, Python dictionaries by insertion-ordered association lists.
All definitions are executable and reduce in the kernel.
-/

set_option maxRecDepth 20000

namespace AzureTables

/-- Python exception classes that can escape the embedded code paths. -/
inductive PyErr where
  | attributeError
  | typeError
  | keyError
deriving DecidableEq

/-- JSON values as produced by the content-decode step for a JSON body.
Arrays are not modelled: the error envelope of interest is an object, and no
claim concerns array-shaped bodies. -/
inductive Json where
  | null
  | str (s : String)
  | num (n : Int)
  | obj (fields : List (String × Json))

/-- First value bound to a key in a JSON object (Python dict lookup). -/
def jsonLookup : List (String × Json) → String → Option Json
  | [], _ => none
  | (k, v) :: rest, key => if k = key then some v else jsonLookup rest key

/-- Python truthiness of the JSON values that can reach `if error_body:`. -/
def jsonTruthy : Json → Bool
  | .null => false
  | .str s => !s.isEmpty
  | .num n => n != 0
  | .obj fields => !fields.isEmpty

/-- Python `str(...)` of a JSON value, as used by `"...".format(error_code)`.
The object case abbreviates the dict repr; no claim depends on it. -/
def pyStr : Json → String
  | .null => "None"
  | .str s => s
  | .num n => toString n
  | .obj _ => "dict"

/-- Python `str(...)` of an optional string (`None` prints as `None`),
as used when formatting the additional-data values into the message. -/
def pyFormatOpt : Option String → String
  | none => "None"
  | some s => s

/-- `d[k] = v` on an insertion-ordered dictionary: an existing key keeps its
position and gets the new value, a new key is appended. -/
def dictSet {α : Type} : List (String × α) → String → α → List (String × α)
  | [], k, v => [(k, v)]
  | (k', v') :: rest, k, v =>
    if k' = k then (k, v) :: rest else (k', v') :: dictSet rest k v

/-- ASCII lower-casing of one character, modelling `str.lower()` on the ASCII
tag names that occur in the XML error bodies. -/
def charLower (c : Char) : Char :=
  if 'A' ≤ c ∧ c ≤ 'Z' then Char.ofNat (c.toNat + 32) else c

/-- Substring test on character lists (Python `needle in hay` / `find != -1`). -/
def hasSub (needle : List Char) : List Char → Bool
  | [] => needle.isEmpty
  | c :: rest => needle.isPrefixOf (c :: rest) || hasSub needle rest

/-- Python `needle in hay` on strings. -/
def containsSub (hay needle : String) : Bool :=
  hasSub needle.data hay.data

/-- Python `hay.lower().find(needle) != -1` on strings. -/
def containsSubLower (hay needle : String) : Bool :=
  hasSub needle.data (hay.data.map charLower)

/-- An XML element as produced by the content-decode step: tag, text, and the
list of direct child elements. -/
inductive XmlElem where
  | mk (tag : String) (text : Option String) (children : List XmlElem)

def XmlElem.tag : XmlElem → String
  | .mk t _ _ => t

def XmlElem.text : XmlElem → Option String
  | .mk _ tx _ => tx

def XmlElem.children : XmlElem → List XmlElem
  | .mk _ _ cs => cs

mutual

/-- `Element.iter()`: the element itself followed by the full iteration of
every child subtree, in document (depth-first, preorder) order. -/
def xmlIter : XmlElem → List XmlElem
  | .mk t tx cs => .mk t tx cs :: xmlIterList cs

/-- Concatenated `iter()` runs of a list of sibling subtrees. -/
def xmlIterList : List XmlElem → List XmlElem
  | [] => []
  | c :: cs => xmlIter c ++ xmlIterList cs

end

/-- Modelled from the spec: `ContentDecodePolicy.deserialize_from_http_generics`
(from `azure-core`, outside this repository) parses the response body by its
declared content type into a JSON value, an XML element tree, or `None` when
there is no body; on a malformed body it raises `DecodeError`. -/
inductive ParsedBody where
  | pyNone
  | pyJson (j : Json)
  | pyXml (x : XmlElem)

/-- Outcome of the body-deserialization call: a parsed value, or the
`DecodeError` that `_decode_error` catches and ignores. -/
inductive BodyOutcome where
  | parsed (p : ParsedBody)
  | decodeFail

/-- The slice of the HTTP response that `_decode_error` reads: the
`x-ms-error-code` header and the (pre-classified) body deserialization
outcome. -/
structure HttpResponse where
  errorCodeHeader : Option String
  body : BodyOutcome

/-- The wire strings of the `TableErrorCode` enumeration, in source order. -/
def tableErrorCodes : List String :=
  ["AccountAlreadyExists", "AccountBeingCreated", "AccountIsDisabled",
   "AuthenticationFailed", "AuthorizationFailure", "NoAuthenticationInformation",
   "ConditionHeadersNotSupported", "ConditionNotMet", "EmptyMetadataKey",
   "InsufficientAccountPermissions", "InternalError", "InvalidAuthenticationInfo",
   "InvalidHeaderValue", "InvalidHttpVerb", "InvalidInput", "InvalidMd5",
   "InvalidMetadata", "InvalidQueryParameterValue", "InvalidRange",
   "InvalidResourceName", "InvalidUri", "InvalidXmlDocument",
   "InvalidXmlNodeValue", "Md5Mismatch", "MetadataTooLarge",
   "MissingContentLengthHeader", "MissingRequiredQueryParameter",
   "MissingRequiredHeader", "MissingRequiredXmlNode",
   "MultipleConditionHeadersNotSupported", "OperationTimedOut",
   "OutOfRangeInput", "OutOfRangeQueryParameterValue", "RequestBodyTooLarge",
   "ResourceTypeMismatch", "RequestUrlFailedToParse", "ResourceAlreadyExists",
   "ResourceNotFound", "ServerBusy", "UnsupportedHeader", "UnsupportedXmlNode",
   "UnsupportedQueryParameter", "UnsupportedHttpVerb",
   "DuplicatePropertiesSpecified", "EntityNotFound", "EntityAlreadyExists",
   "EntityTooLarge", "HostInformationNotPresent", "InvalidDuplicateRow",
   "InvalidValueType", "JsonFormatNotSupported", "MethodNotAllowed",
   "NotImplemented", "PropertiesNeedValue", "PropertyNameInvalid",
   "PropertyNameTooLong", "PropertyValueTooLarge", "TableAlreadyExists",
   "TableBeingDeleted", "TableNotFound", "TooManyProperties",
   "UpdateConditionNotSatisfied", "XMethodIncorrectCount",
   "XMethodIncorrectValue", "XMethodNotUsingPost"]

/-- The Python exception classes `_decode_error` can pick as `error_type`. -/
inductive ErrorType where
  | httpResponseError
  | resourceModifiedError
  | clientAuthenticationError
  | resourceNotFoundError
  | resourceExistsError
deriving DecidableEq

/-- The `error_code` value carried by the decoded error: either a
`TableErrorCode` member (identified by its wire string value) when the
conversion `TableErrorCode(error_code)` succeeded, or the raw unconverted
value when it did not (or was never attempted). -/
inductive ErrCode where
  | enumCode (s : String)
  | rawCode (v : Json)

/-- Python `decoded_error.error_code == lit` for a string literal `lit`:
a `str`-enum member compares by its wire value, a raw string by equality,
`None` and numbers are never equal to a string. -/
def codeEqStr : ErrCode → String → Bool
  | .enumCode s, t => s = t
  | .rawCode (.str s), t => s = t
  | .rawCode _, _ => false

/-- The string interpolated after `ErrorCode:`: `error_code.value` for an enum
member, and (via the `AttributeError` fallback) `str(error_code)` for a raw
value. -/
def formatCode : ErrCode → String
  | .enumCode s => s
  | .rawCode v => pyStr v

/-- The `if error_code in [...]` classification chain of `_decode_error`,
reached only after `TableErrorCode(error_code)` succeeded. The Python
membership lists also contain the stray class objects `ResourceNotFoundError`
and `ResourceExistsError`, which never compare equal to an enum member and are
therefore not modelled. -/
def classifyKnownCode (s : String) : ErrorType :=
  if s ∈ ["ConditionNotMet", "UpdateConditionNotSatisfied"] then
    .resourceModifiedError
  else if s ∈ ["InvalidAuthenticationInfo", "AuthenticationFailed"] then
    .clientAuthenticationError
  else if s ∈ ["ResourceNotFound", "TableNotFound", "EntityNotFound"] then
    .resourceNotFoundError
  else if s ∈ ["ResourceAlreadyExists", "TableAlreadyExists",
               "AccountAlreadyExists", "EntityAlreadyExists"] then
    .resourceExistsError
  else
    .httpResponseError

/-- The whole `try: error_code = TableErrorCode(error_code) ... except
ValueError: error_type = HttpResponseError` block, for the case where no
explicit `error_type` was supplied: a wire string in the enumeration is
converted to its member and classified; anything else leaves the raw value in
place and falls back to `HttpResponseError`. -/
def classifyCode (c : Json) : ErrorType × ErrCode :=
  match c with
  | .str s =>
    if s ∈ tableErrorCodes then (classifyKnownCode s, .enumCode s)
    else (.httpResponseError, .rawCode c)
  | _ => (.httpResponseError, .rawCode c)

/-- One step of the XML loop body of `_decode_error`: a tag containing
`code` (case-insensitively) resets the code, one containing `message` resets
the message, anything else is stored in `additional_data` under its tag. -/
def xmlStep (acc : Json × Json × List (String × Option String)) (e : XmlElem) :
    Json × Json × List (String × Option String) :=
  let (code, msg, extra) := acc
  if containsSubLower e.tag "code" then
    (match e.text with | some s => Json.str s | none => Json.null, msg, extra)
  else if containsSubLower e.tag "message" then
    (code, match e.text with | some s => Json.str s | none => Json.null, extra)
  else
    (code, msg, dictSet extra e.tag e.text)

/-- The XML loop of `_decode_error` over an already-linearized iteration. -/
def xmlFold (es : List XmlElem) (code msg : Json)
    (extra : List (String × Option String)) :
    Json × Json × List (String × Option String) :=
  es.foldl xmlStep (code, msg, extra)

/-- The loop `for info in error_body.get("odata.error", {})` of
`_decode_error`, iterating the keys of the envelope in insertion order.
A `code` key overwrites the error code with the value found by re-indexing
the envelope; a `message` key overwrites the message with the `value` field
of the corresponding entry (raising `TypeError`/`KeyError` as Python indexing
would); any other key executes `additional_data[info.tag] = info.text` on the
string `info`, which raises `AttributeError`. -/
def processODataKeys (env : List (String × Json)) :
    List String → Json → Json → Except PyErr (Json × Json)
  | [], code, msg => .ok (code, msg)
  | k :: rest, code, msg =>
    if k = "code" then
      match jsonLookup env "code" with
      | some v => processODataKeys env rest v msg
      | none => .error .keyError
    else if k = "message" then
      match jsonLookup env "message" with
      | some (.obj mfs) =>
        match jsonLookup mfs "value" with
        | some v => processODataKeys env rest code v
        | none => .error .keyError
      | some _ => .error .typeError
      | none => .error .keyError
    else
      .error .attributeError

/-- The body-interpretation phase of `_decode_error` (the first `try` block):
given the body outcome, the header-seeded code and the caller-supplied
message, produce the code, message and additional data (or the Python
exception that escapes).

For a JSON dict body, the envelope `error_body.get("odata.error", {})` is
iterated: iterating a non-empty string envelope yields single-character keys
whose first one hits the `info.tag` branch (`AttributeError`); iterating
`None` or a number raises `TypeError`. A non-dict body falls to the `else`
branch, where a truthy non-XML value has no `.iter()` (`AttributeError`),
and a falsy one skips the loop. An XML element with no children is falsy in
`ElementTree` and also skips the loop; otherwise `error_body.iter()` walks
the whole tree in preorder. A `DecodeError` from deserialization is caught
and ignored. -/
def decodeBody (b : BodyOutcome) (code0 msg0 : Json) :
    Except PyErr (Json × Json × List (String × Option String)) :=
  match b with
  | .decodeFail => .ok (code0, msg0, [])
  | .parsed .pyNone => .ok (code0, msg0, [])
  | .parsed (.pyJson (.obj fields)) =>
    match (jsonLookup fields "odata.error").getD (.obj []) with
    | .obj efs =>
      match processODataKeys efs (efs.map Prod.fst) code0 msg0 with
      | .ok (c, m) => .ok (c, m, [])
      | .error e => .error e
    | .str s => if s.isEmpty then .ok (code0, msg0, []) else .error .attributeError
    | .null => .error .typeError
    | .num _ => .error .typeError
  | .parsed (.pyJson j) =>
    if jsonTruthy j then .error .attributeError else .ok (code0, msg0, [])
  | .parsed (.pyXml x) =>
    if x.children.isEmpty then .ok (code0, msg0, [])
    else .ok (xmlFold (xmlIter x) code0 msg0 [])

/-- The message-decoration loop of `_decode_error`: append the
`ErrorCode:` line, then one `key:value` line per additional-data entry, in
order. -/
def decorateMessage (msg : String) (codeStr : String)
    (extra : List (String × Option String)) : String :=
  extra.foldl (fun m kv => m ++ "\n" ++ kv.1 ++ ":" ++ pyFormatOpt kv.2)
    (msg ++ "\nErrorCode:" ++ codeStr)

/-- The decoded, classified and decorated error returned by `_decode_error`. -/
structure DecodedError where
  errorType : ErrorType
  message : String
  errorCode : ErrCode
  additionalInfo : List (String × Option String)

/-- `_decode_error(response, error_message, error_type)`. The final
`error_message +=` statements require the message to be a string: when the
message is still `None` (or any non-string), Python raises `TypeError`,
which no surrounding handler catches. -/
def decodeError (resp : HttpResponse) (errorMessage : Json)
    (errorType : Option ErrorType) : Except PyErr DecodedError :=
  let code0 : Json := match resp.errorCodeHeader with
    | some s => .str s
    | none => .null
  match decodeBody resp.body code0 errorMessage with
  | .error e => .error e
  | .ok (code1, msg1, extra) =>
    let tyCode : ErrorType × ErrCode := match errorType with
      | some t => (t, .rawCode code1)
      | none => classifyCode code1
    match msg1 with
    | .str m =>
      .ok ⟨tyCode.1, decorateMessage m (formatCode tyCode.2) extra,
           tyCode.2, extra⟩
    | _ => .error .typeError

/-- The ASCII apostrophe, used to spell source message fragments that contain
an escaped quote. -/
def apos : String := String.singleton (Char.ofNat 39)

/-- `[a-zA-Z]` (the Python pattern uses explicit ASCII ranges). -/
def isAsciiLetterB (c : Char) : Bool :=
  ('a' ≤ c && c ≤ 'z') || ('A' ≤ c && c ≤ 'Z')

/-- `[a-zA-Z0-9]`. -/
def isAsciiAlnumB (c : Char) : Bool :=
  isAsciiLetterB c || ('0' ≤ c && c ≤ '9')

/-- Full match of the storage pattern body `[a-zA-Z]{1}[a-zA-Z0-9]{2,62}`
against a whole character list. -/
def storageCore : List Char → Bool
  | [] => false
  | c :: rest =>
    isAsciiLetterB c && rest.all isAsciiAlnumB &&
      decide (2 ≤ rest.length) && decide (rest.length ≤ 62)

/-- `_STORAGE_VALID_TABLE.match(name) is not None`. Python `re.match` with a
pattern of the form `^...$` (no `MULTILINE`) succeeds when the pattern body
matches the whole string, or the whole string minus a single newline that
ends it: `$` also matches just before a terminal newline. -/
def storageMatch (name : String) : Bool :=
  storageCore name.data ||
    (name.data.getLast? = some '\n' && storageCore name.data.dropLast)

/-- `[^/\\#?]` complement set of the cosmos pattern. -/
def cosmosForbid (c : Char) : Bool :=
  c = '/' || c = '\\' || c = '#' || c = '?'

/-- `[^ /\\#?]` complement set for the final character. -/
def cosmosForbidLast (c : Char) : Bool :=
  cosmosForbid c || c = ' '

/-- Full match of the cosmos pattern body `[^/\\#?]{0,253}[^ /\\#?]{1}`
against a whole character list. With backtracking, the body matches exactly
when the list is non-empty, at most 254 long, every character avoids the
first set, and the last character also avoids the space. -/
def cosmosCore (l : List Char) : Bool :=
  match l.getLast? with
  | none => false
  | some c =>
    decide (l.dropLast.length ≤ 253) &&
      l.dropLast.all (fun x => !cosmosForbid x) && !cosmosForbidLast c

/-- `_COSMOS_VALID_TABLE.match(name) is not None`, with the same terminal
newline allowance of `$` as in `storageMatch`. -/
def cosmosMatch (name : String) : Bool :=
  cosmosCore name.data ||
    (name.data.getLast? = some '\n' && cosmosCore name.data.dropLast)

/-- `_validate_storage_tablename`: `true` means the `ValueError` is raised. -/
def validateStorageTablename (name : String) : Bool :=
  !storageMatch name

/-- `_validate_cosmos_tablename`: `true` means the `ValueError` is raised. -/
def validateCosmosTablename (name : String) : Bool :=
  !cosmosMatch name

/-- `_validate_tablename_error(decoded_error, table_name)`: `true` means one
of the branches fired and its validator raised `ValueError`, `false` means
either no branch fired or the name passed the selected grammar. -/
def validateTablenameError (d : DecodedError) (name : String) : Bool :=
  if codeEqStr d.errorCode "InvalidResourceName" &&
      containsSub d.message "The specified resource name contains invalid characters" then
    validateStorageTablename name
  else if codeEqStr d.errorCode "InvalidResourceName" &&
      containsSub d.message "The specifed resource name contains invalid characters" then
    validateStorageTablename name
  else if codeEqStr d.errorCode "OutOfRangeInput" &&
      containsSub d.message "The specified resource name length is not within the permissible limits" then
    validateStorageTablename name
  else if codeEqStr d.errorCode "InternalServerError" &&
      (containsSub d.message "The resource name presented contains invalid character" ||
       containsSub d.message ("The resource name can" ++ apos ++ "t end with space")) then
    validateCosmosTablename name
  else if codeEqStr d.errorCode "BadRequest" &&
      containsSub d.message "The input name is invalid." then
    validateCosmosTablename name
  else if codeEqStr d.errorCode "InvalidInput" &&
      (containsSub d.message "Request url is invalid." ||
       containsSub d.message "One of the input values is invalid." ||
       containsSub d.message "The table name contains an invalid character" ||
       containsSub d.message "Table name cannot end with a space.") then
    validateCosmosTablename name
  else if codeEqStr d.errorCode "Unauthorized" &&
      (containsSub d.message ("The input authorization token can" ++ apos ++ "t serve the request.") ||
       containsSub d.message "The MAC signature found in the HTTP request") then
    validateCosmosTablename name
  else
    false

/-- The error object handed to `_process_table_error`: `response = none`
models an object with no `response` attribute (access raises
`AttributeError`). -/
structure StorageError where
  response : Option HttpResponse
  message : Json

/-- What `_process_table_error` ends up raising. -/
inductive ProcessOutcome where
  | raisesOriginal
  | raisesDecoded (d : DecodedError)
  | raisesValidationError
  | raisesPy (e : PyErr)

/-- `_process_table_error(storage_error, table_name)`: decode inside a
`try/except AttributeError` that re-raises the original error, then run the
name validation when a (truthy) table name is available, then re-raise the
decoded error. -/
def processTableError (e : StorageError) (tableName : Option String) :
    ProcessOutcome :=
  match e.response with
  | none => .raisesOriginal
  | some resp =>
    match decodeError resp e.message none with
    | .error .attributeError => .raisesOriginal
    | .error err => .raisesPy err
    | .ok d =>
      match tableName with
      | some t =>
        if t.isEmpty then .raisesDecoded d
        else if validateTablenameError d t then .raisesValidationError
        else .raisesDecoded d
      | none => .raisesDecoded d

/-- Whitespace stripped by Python `int(...)` (ASCII portion). -/
def isPyWS (c : Char) : Bool :=
  c = ' ' || c = '\t' || c = '\n' || c = '\r' ||
    c = Char.ofNat 11 || c = Char.ofNat 12

/-- Digit-run tail of a Python integer literal: digits with single
underscores allowed only between digits. -/
def pyDigitTail : List Char → Bool
  | [] => true
  | ['_'] => false
  | '_' :: c :: r => c.isDigit && pyDigitTail (c :: r)
  | c :: r => c.isDigit && pyDigitTail r

/-- A non-empty Python digit run (underscore separators allowed inside). -/
def pyDigitsOk : List Char → Bool
  | [] => false
  | c :: rest => c.isDigit && pyDigitTail rest

/-- Numeric value of a digit run, ignoring underscore separators. -/
def digitsVal (l : List Char) : Nat :=
  l.foldl (fun a c => if c.isDigit then a * 10 + (c.toNat - 48) else a) 0

/-- CPython `int(s)` on ASCII input: strip whitespace, optional sign, then a
digit run; anything else raises `ValueError` (modelled as `none`). Unicode
digits and whitespace are outside the modelled alphabet. -/
def pyInt (s : String) : Option Int :=
  let t := ((s.data.dropWhile isPyWS).reverse.dropWhile isPyWS).reverse
  match t with
  | '+' :: rest =>
    if pyDigitsOk rest then some (digitsVal rest : Int) else none
  | '-' :: rest =>
    if pyDigitsOk rest then some (-(digitsVal rest : Int)) else none
  | rest =>
    if pyDigitsOk rest then some (digitsVal rest : Int) else none

/-- `message.split(":", 1)[0]`: everything before the first colon (the whole
string when there is none). -/
def splitLeft (s : String) : String :=
  ⟨s.data.takeWhile (fun c => c ≠ ':')⟩

/-- `TableTransactionError._extract_index`: parse the prefix before the first
colon as an integer; the bare `except` turns any failure (including a
non-string message, whose `.split` raises `AttributeError`) into 0. -/
def extractIndex (message : Json) : Int :=
  match message with
  | .str s =>
    match pyInt (splitLeft s) with
    | some n => n
    | none => 0
  | _ => 0

/-- `TableTransactionError.__init__`: `kwargs.get("index",
self._extract_index())`. -/
def transactionIndex (explicit : Option Int) (message : Json) : Int :=
  explicit.getD (extractIndex message)

/-- The suffix appended to the message by `_decode_error`, built by the same
left fold as `decorateMessage` but starting from the empty prior message. -/
def suffixOf (codeStr : String) (extra : List (String × Option String)) : String :=
  extra.foldl (fun m kv => m ++ "\n" ++ kv.1 ++ ":" ++ pyFormatOpt kv.2)
    ("\nErrorCode:" ++ codeStr)

/-- Split a character list on a separator character (no separator yields a
single segment, a trailing separator yields a trailing empty segment). -/
def splitOnChar (sep : Char) : List Char → List (List Char)
  | [] => [[]]
  | c :: rest =>
    if c = sep then [] :: splitOnChar sep rest
    else (c :: (splitOnChar sep rest).headD []) :: (splitOnChar sep rest).tail

/-- Parse one `key:value` line of the appended suffix: split at the first
colon; a line with no colon is not parseable. -/
def parseKV : List Char → Option (List Char × List Char)
  | [] => none
  | c :: rest =>
    if c = ':' then some ([], rest)
    else
      match parseKV rest with
      | some (k, v) => some (c :: k, v)
      | none => none

/-- Parse every `key:value` line, failing if any line fails. -/
def parseKVLines : List (List Char) → Option (List (List Char × List Char))
  | [] => some []
  | l :: rest =>
    match parseKV l, parseKVLines rest with
    | some kv, some kvs => some (kv :: kvs)
    | _, _ => none

/-- Side conditions under which the appended suffix is unambiguous: the code
line and every key and every formatted value are newline-free, and keys are
colon-free. -/
def unambiguousSuffix (codeStr : String)
    (extra : List (String × Option String)) : Prop :=
  '\n' ∉ codeStr.data ∧
    ∀ kv ∈ extra, '\n' ∉ kv.1.data ∧ ':' ∉ kv.1.data ∧
      '\n' ∉ (pyFormatOpt kv.2).data

instance (codeStr : String) (extra : List (String × Option String)) :
    Decidable (unambiguousSuffix codeStr extra) := by
  unfold unambiguousSuffix
  infer_instance

/-- Written from the spec fixed sets (section 4.2 of the spec): the kind
assigned to each recognized wire code. -/
def specClassifyKind (s : String) : ErrorType :=
  if s ∈ ["ConditionNotMet", "UpdateConditionNotSatisfied"] then
    .resourceModifiedError
  else if s ∈ ["InvalidAuthenticationInfo", "AuthenticationFailed"] then
    .clientAuthenticationError
  else if s ∈ ["ResourceNotFound", "TableNotFound", "EntityNotFound"] then
    .resourceNotFoundError
  else if s ∈ ["ResourceAlreadyExists", "TableAlreadyExists",
               "AccountAlreadyExists", "EntityAlreadyExists"] then
    .resourceExistsError
  else
    .httpResponseError

/-- Written from the spec words for the cosmos grammar: zero to 253
characters outside the forbidden set, followed by exactly one character that
is also not a space. -/
def cosmosGrammar (l : List Char) : Prop :=
  ∃ t c, l = t ++ [c] ∧ t.length ≤ 253 ∧
    (∀ x ∈ t, cosmosForbid x = false) ∧ cosmosForbidLast c = false

/-- Written from the spec words for the transaction-index extraction: the
integer parsed from the segment before the first colon, defaulting to 0. -/
def specExtractIndex (s : String) : Int :=
  (pyInt (splitLeft s)).getD 0

/-- Tags whose elements land in `additional_data` in the XML loop. -/
def xmlOther (e : XmlElem) : Bool :=
  !containsSubLower e.tag "code" && !containsSubLower e.tag "message"

/-! ### Helper lemmas -/

theorem storageCore_length_ge {l : List Char} (h : storageCore l = true) :
    3 ≤ l.length := by
  cases l with
  | nil => simp [storageCore] at h
  | cons c rest =>
    simp only [storageCore, Bool.and_eq_true, decide_eq_true_eq] at h
    simp only [List.length_cons]
    omega

theorem codeEqStr_excl (ec : ErrCode) {s t : String}
    (h : codeEqStr ec s = true) (hne : s ≠ t) : codeEqStr ec t = false := by
  cases ec with
  | enumCode u =>
    simp only [codeEqStr, decide_eq_true_eq] at h
    subst h
    simp [codeEqStr, hne]
  | rawCode v =>
    cases v with
    | str u =>
      simp only [codeEqStr, decide_eq_true_eq] at h
      subst h
      simp [codeEqStr, hne]
    | null => simp [codeEqStr] at h
    | num n => simp [codeEqStr] at h
    | obj fs => simp [codeEqStr] at h

theorem getLastSome_decomp {l : List Char} {c : Char}
    (h : l.getLast? = some c) : l = l.dropLast ++ [c] := by
  have hne : l ≠ [] := by
    intro he
    rw [he] at h
    cases h
  have h3 : l.getLast hne = c := by
    have h2 := List.getLast?_eq_getLast l hne
    rw [h2, Option.some_inj] at h
    exact h
  rw [← h3]
  exact (List.dropLast_append_getLast hne).symm

theorem cosmosCore_iff {l : List Char} : cosmosCore l = true ↔ cosmosGrammar l := by
  constructor
  · intro h
    unfold cosmosCore at h
    cases hl : l.getLast? with
    | none => rw [hl] at h; cases h
    | some c =>
      rw [hl] at h
      simp only [Bool.and_eq_true, decide_eq_true_eq, List.all_eq_true,
        Bool.not_eq_true'] at h
      obtain ⟨⟨hlen, hall⟩, hlast⟩ := h
      exact ⟨l.dropLast, c, getLastSome_decomp hl, hlen, hall, hlast⟩
  · rintro ⟨t, c, rfl, hlen, hall, hlast⟩
    unfold cosmosCore
    rw [List.getLast?_concat]
    simp only [List.dropLast_concat, Bool.and_eq_true, decide_eq_true_eq,
      List.all_eq_true, Bool.not_eq_true']
    exact ⟨⟨hlen, hall⟩, hlast⟩

theorem cosmosGrammar_length {l : List Char} (h : cosmosGrammar l) :
    l.length ≤ 254 := by
  obtain ⟨t, c, rfl, hlen, -, -⟩ := h
  simp only [List.length_append, List.length_cons, List.length_nil]
  omega

theorem cosmosMatch_iff {name : String} :
    cosmosMatch name = true ↔
      (cosmosGrammar name.data ∨
        ∃ w, name.data = w ++ ['\n'] ∧ cosmosGrammar w) := by
  unfold cosmosMatch
  simp only [Bool.or_eq_true, Bool.and_eq_true, decide_eq_true_eq, cosmosCore_iff]
  constructor
  · rintro (h | ⟨hl, hg⟩)
    · exact Or.inl h
    · exact Or.inr ⟨name.data.dropLast, getLastSome_decomp hl, hg⟩
  · rintro (h | ⟨w, hw, hg⟩)
    · exact Or.inl h
    · refine Or.inr ⟨?_, ?_⟩
      · rw [hw, List.getLast?_concat]
      · rw [hw, List.dropLast_concat]
        exact hg

theorem decorate_foldl_extract (extra : List (String × Option String))
    (msg : String) :
    ∀ s : String,
      extra.foldl (fun m kv => m ++ "\n" ++ kv.1 ++ ":" ++ pyFormatOpt kv.2)
          (msg ++ s) =
        msg ++ extra.foldl
          (fun m kv => m ++ "\n" ++ kv.1 ++ ":" ++ pyFormatOpt kv.2) s := by
  induction extra with
  | nil => intro s; rfl
  | cons kv rest ih =>
    intro s
    simp only [List.foldl_cons]
    rw [show msg ++ s ++ "\n" ++ kv.1 ++ ":" ++ pyFormatOpt kv.2 =
          msg ++ (s ++ "\n" ++ kv.1 ++ ":" ++ pyFormatOpt kv.2) by
        simp [String.append_assoc]]
    exact ih _

theorem decorate_eq_suffix (msg codeStr : String)
    (extra : List (String × Option String)) :
    decorateMessage msg codeStr extra = msg ++ suffixOf codeStr extra := by
  unfold decorateMessage suffixOf
  rw [show msg ++ "\nErrorCode:" ++ codeStr =
        msg ++ ("\nErrorCode:" ++ codeStr) by rw [String.append_assoc]]
  exact decorate_foldl_extract extra msg _

/-- The character content of one appended `key:value` line, with its leading
newline. -/
def entryChars (kv : String × Option String) : List Char :=
  '\n' :: (kv.1.data ++ ':' :: (pyFormatOpt kv.2).data)

/-- The character content of one appended line without its newline. -/
def lineChars (kv : String × Option String) : List Char :=
  kv.1.data ++ ':' :: (pyFormatOpt kv.2).data

theorem suffixOf_data (codeStr : String) (extra : List (String × Option String)) :
    (suffixOf codeStr extra).data =
      '\n' :: (("ErrorCode:".data ++ codeStr.data) ++
        (extra.map entryChars).flatten) := by
  suffices h : ∀ (acc : String),
      (extra.foldl (fun m kv => m ++ "\n" ++ kv.1 ++ ":" ++ pyFormatOpt kv.2)
          acc).data = acc.data ++ (extra.map entryChars).flatten by
    have h2 := h ("\nErrorCode:" ++ codeStr)
    unfold suffixOf
    rw [h2]
    simp [entryChars, String.data_append]
  induction extra with
  | nil => intro acc; simp
  | cons kv rest ih =>
    intro acc
    simp only [List.foldl_cons, List.map_cons, List.flatten_cons]
    rw [ih]
    simp [String.data_append, entryChars]

theorem splitOnChar_cons (sep c : Char) (rest : List Char) :
    splitOnChar sep (c :: rest) =
      if c = sep then [] :: splitOnChar sep rest
      else (c :: (splitOnChar sep rest).headD []) :: (splitOnChar sep rest).tail :=
  rfl

theorem splitOnChar_of_not_mem {sep : Char} :
    ∀ {l : List Char}, sep ∉ l → splitOnChar sep l = [l] := by
  intro l
  induction l with
  | nil => intro _; rfl
  | cons c rest ih =>
    intro h
    simp only [List.mem_cons, not_or] at h
    rw [splitOnChar_cons, if_neg (fun he => h.1 he.symm), ih h.2]
    rfl

theorem splitOnChar_append {sep : Char} {a : List Char} (ha : sep ∉ a) :
    ∀ b : List Char, splitOnChar sep (a ++ sep :: b) = a :: splitOnChar sep b := by
  induction a with
  | nil =>
    intro b
    simp only [List.nil_append]
    rw [splitOnChar_cons, if_pos rfl]
  | cons c rest ih =>
    intro b
    simp only [List.mem_cons, not_or] at ha
    simp only [List.cons_append]
    rw [splitOnChar_cons, if_neg (fun he => ha.1 he.symm), ih ha.2]
    rfl

theorem splitOnChar_flatten (extra : List (String × Option String))
    (hextra : ∀ kv ∈ extra, '\n' ∉ kv.1.data ∧ ':' ∉ kv.1.data ∧
      '\n' ∉ (pyFormatOpt kv.2).data) :
    ∀ pre : List Char, '\n' ∉ pre →
      splitOnChar '\n' (pre ++ (extra.map entryChars).flatten) =
        pre :: extra.map lineChars := by
  induction extra with
  | nil =>
    intro pre hpre
    simp only [List.map_nil, List.flatten_nil, List.append_nil]
    rw [splitOnChar_of_not_mem hpre]
  | cons kv rest ih =>
    intro pre hpre
    have hkv := hextra kv (List.mem_cons_self kv rest)
    have hline : '\n' ∉ lineChars kv := by
      unfold lineChars
      simp only [List.mem_append, List.mem_cons, not_or]
      refine ⟨hkv.1, ?_, hkv.2.2⟩
      decide
    simp only [List.map_cons, List.flatten_cons]
    rw [show pre ++ (entryChars kv ++ (rest.map entryChars).flatten) =
          pre ++ '\n' :: (lineChars kv ++ (rest.map entryChars).flatten) from rfl]
    rw [splitOnChar_append hpre]
    rw [ih (fun kv2 h2 => hextra kv2 (List.mem_cons_of_mem kv h2)) _ hline]

theorem isPrefixOf_append (a b : List Char) : a.isPrefixOf (a ++ b) = true := by
  induction a with
  | nil => simp [List.isPrefixOf]
  | cons c rest ih => simp [List.isPrefixOf, ih]

theorem parseKV_cons (c : Char) (rest : List Char) :
    parseKV (c :: rest) =
      if c = ':' then some ([], rest)
      else
        match parseKV rest with
        | some (k, v) => some (c :: k, v)
        | none => none :=
  rfl

theorem parseKV_line {k : List Char} (hk : ':' ∉ k) (v : List Char) :
    parseKV (k ++ ':' :: v) = some (k, v) := by
  induction k with
  | nil => simp [parseKV_cons]
  | cons c rest ih =>
    simp only [List.mem_cons, not_or] at hk
    have hc : ¬c = ':' := fun he => hk.1 he.symm
    simp only [List.cons_append]
    rw [parseKV_cons, if_neg hc, ih hk.2]

theorem parseKVLines_map (extra : List (String × Option String))
    (hextra : ∀ kv ∈ extra, '\n' ∉ kv.1.data ∧ ':' ∉ kv.1.data ∧
      '\n' ∉ (pyFormatOpt kv.2).data) :
    parseKVLines (extra.map lineChars) =
      some (extra.map (fun kv => (kv.1.data, (pyFormatOpt kv.2).data))) := by
  induction extra with
  | nil => rfl
  | cons kv rest ih =>
    have hkv := hextra kv (List.mem_cons_self kv rest)
    simp only [List.map_cons]
    unfold parseKVLines
    rw [show lineChars kv = kv.1.data ++ ':' :: (pyFormatOpt kv.2).data from rfl]
    rw [parseKV_line hkv.2.1, ih (fun kv2 h2 => hextra kv2 (List.mem_cons_of_mem kv h2))]

theorem dictSet_keys_self {α : Type} (d : List (String × α)) (k : String) (v : α) :
    k ∈ (dictSet d k v).map Prod.fst := by
  induction d with
  | nil => simp [dictSet]
  | cons kv rest ih =>
    obtain ⟨k', v'⟩ := kv
    unfold dictSet
    by_cases h : k' = k
    · rw [if_pos h]; simp
    · rw [if_neg h]; simpa using Or.inr ih

theorem dictSet_keys_mono {α : Type} {d : List (String × α)} {k' : String}
    (h : k' ∈ d.map Prod.fst) (k : String) (v : α) :
    k' ∈ (dictSet d k v).map Prod.fst := by
  induction d with
  | nil => simp at h
  | cons kv rest ih =>
    obtain ⟨k0, v0⟩ := kv
    unfold dictSet
    simp only [List.map_cons, List.mem_cons] at h
    by_cases he : k0 = k
    · rw [if_pos he]
      rcases h with h | h
      · subst he; simpa using Or.inl h
      · simpa using Or.inr h
    · rw [if_neg he]
      rcases h with h | h
      · simpa using Or.inl h
      · simpa using Or.inr (ih h)

theorem dictSet_keys_sub {α : Type} {d : List (String × α)} {k : String} {v : α}
    {k' : String} (h : k' ∈ (dictSet d k v).map Prod.fst) :
    k' = k ∨ k' ∈ d.map Prod.fst := by
  induction d with
  | nil => simpa [dictSet] using h
  | cons kv rest ih =>
    obtain ⟨k0, v0⟩ := kv
    unfold dictSet at h
    by_cases he : k0 = k
    · rw [if_pos he] at h
      simp only [List.map_cons, List.mem_cons] at h ⊢
      rcases h with h | h
      · exact Or.inl h
      · exact Or.inr (Or.inr h)
    · rw [if_neg he] at h
      simp only [List.map_cons, List.mem_cons] at h ⊢
      rcases h with h | h
      · exact Or.inr (Or.inl h)
      · rcases ih h with h2 | h2
        · exact Or.inl h2
        · exact Or.inr (Or.inr h2)

theorem xmlStep_extra (acc : Json × Json × List (String × Option String))
    (e : XmlElem) (h : xmlOther e = true) :
    (xmlStep acc e).2.2 = dictSet acc.2.2 e.tag e.text := by
  obtain ⟨c, m, extra⟩ := acc
  unfold xmlOther at h
  simp only [Bool.and_eq_true, Bool.not_eq_true'] at h
  simp [xmlStep, h.1, h.2]

theorem xmlStep_extra_keep (acc : Json × Json × List (String × Option String))
    (e : XmlElem) (h : xmlOther e = false) :
    (xmlStep acc e).2.2 = acc.2.2 := by
  obtain ⟨c, m, extra⟩ := acc
  unfold xmlOther at h
  unfold xmlStep
  by_cases h1 : containsSubLower e.tag "code" = true
  · simp [h1]
  · rw [Bool.not_eq_true] at h1
    rw [h1] at h
    simp only [Bool.not_false, Bool.true_and, Bool.not_eq_false'] at h
    simp [h1, h]

theorem xmlFold_keys_mono :
    ∀ (es : List XmlElem) (c m : Json) (extra : List (String × Option String))
      (k : String), k ∈ extra.map Prod.fst →
      k ∈ (xmlFold es c m extra).2.2.map Prod.fst := by
  intro es
  induction es with
  | nil => intro c m extra k h; exact h
  | cons e rest ih =>
    intro c m extra k h
    show k ∈ (xmlFold rest (xmlStep (c, m, extra) e).1
      (xmlStep (c, m, extra) e).2.1 (xmlStep (c, m, extra) e).2.2).2.2.map Prod.fst
    cases ho : xmlOther e with
    | true =>
      refine ih _ _ _ k ?_
      rw [xmlStep_extra _ _ ho]
      exact dictSet_keys_mono h _ _
    | false =>
      refine ih _ _ _ k ?_
      rw [xmlStep_extra_keep _ _ ho]
      exact h

theorem xmlFold_keys_of_mem :
    ∀ (es : List XmlElem) (c m : Json) (extra : List (String × Option String))
      (e : XmlElem), e ∈ es → xmlOther e = true →
      e.tag ∈ (xmlFold es c m extra).2.2.map Prod.fst := by
  intro es
  induction es with
  | nil => intro c m extra e h; cases h
  | cons f rest ih =>
    intro c m extra e h ho
    rcases List.mem_cons.mp h with h | h
    · subst h
      show e.tag ∈ (xmlFold rest (xmlStep (c, m, extra) e).1
        (xmlStep (c, m, extra) e).2.1 (xmlStep (c, m, extra) e).2.2).2.2.map Prod.fst
      refine xmlFold_keys_mono rest _ _ _ e.tag ?_
      rw [xmlStep_extra _ _ ho]
      exact dictSet_keys_self _ _ _
    · exact ih _ _ _ e h ho

theorem xmlFold_keys_sub :
    ∀ (es : List XmlElem) (c m : Json) (extra : List (String × Option String))
      (k : String), k ∈ (xmlFold es c m extra).2.2.map Prod.fst →
      k ∈ extra.map Prod.fst ∨ ∃ e, e ∈ es ∧ xmlOther e = true ∧ e.tag = k := by
  intro es
  induction es with
  | nil => intro c m extra k h; exact Or.inl h
  | cons f rest ih =>
    intro c m extra k h
    replace h : k ∈ (xmlFold rest (xmlStep (c, m, extra) f).1
        (xmlStep (c, m, extra) f).2.1 (xmlStep (c, m, extra) f).2.2).2.2.map Prod.fst := h
    rcases ih _ _ _ k h with h2 | ⟨e, he, ho, ht⟩
    · cases ho : xmlOther f with
      | true =>
        rw [xmlStep_extra _ _ ho] at h2
        rcases dictSet_keys_sub h2 with h3 | h3
        · exact Or.inr ⟨f, List.mem_cons_self f rest, ho, h3.symm⟩
        · exact Or.inl h3
      | false =>
        rw [xmlStep_extra_keep _ _ ho] at h2
        exact Or.inl h2
    · exact Or.inr ⟨e, List.mem_cons_of_mem f he, ho, ht⟩

/-- Split of `reparseSuffix` that works on the already-split lines. -/
def reparseLines : List (List Char) → Option (List Char × List (List Char × List Char))
  | [] :: codeLine :: rest =>
    if "ErrorCode:".data.isPrefixOf codeLine then
      match parseKVLines rest with
      | some entries => some (codeLine.drop 10, entries)
      | none => none
    else none
  | _ => none

/-- Re-parse the appended suffix: it must start with a newline, its first
line must carry the `ErrorCode:` marker, and every further line is a
`key:value` pair. Returns the recovered code and entries. -/
def reparseSuffix (l : List Char) : Option (List Char × List (List Char × List Char)) :=
  reparseLines (splitOnChar '\n' l)

/-! ### Claim theorems -/

/-- C1: for every decoded error whose code string is a member of the closed
`TableErrorCode` enumeration, classification assigns the documented kind via
the fixed sets (ModifiedConflict, AuthFailure, NotFound, AlreadyExists,
otherwise Generic), and for every code string not in the enumeration,
classification yields Generic (`HttpResponseError`) with the raw string
retained as the resulting error code. -/
theorem c1_classification_confirmed (s : String) :
    (s ∈ tableErrorCodes →
      classifyCode (Json.str s) = (specClassifyKind s, ErrCode.enumCode s)) ∧
    (s ∉ tableErrorCodes →
      classifyCode (Json.str s) =
        (ErrorType.httpResponseError, ErrCode.rawCode (Json.str s))) := by
  constructor
  · intro h
    simp [classifyCode, h, classifyKnownCode, specClassifyKind]
  · intro h
    simp [classifyCode, h]

/-- Witness for C1 at the concrete recognized code `TableNotFound`. -/
theorem c1_classification_witness :
    classifyCode (Json.str "TableNotFound") =
      (specClassifyKind "TableNotFound", ErrCode.enumCode "TableNotFound") ∧
    specClassifyKind "TableNotFound" = ErrorType.resourceNotFoundError :=
  ⟨(c1_classification_confirmed "TableNotFound").1 (by decide), by decide⟩

/-- C2 counterexample: two different extra-data mappings produce the very
same decorated message, so no re-parsing of the appended suffix can recover
the extra-data mapping exactly; the round-trip claim fails as stated. -/
theorem c2_roundtrip_counterexample :
    decorateMessage "m" "Err" [("k", some ("v" ++ "\n" ++ "w:x"))] =
      decorateMessage "m" "Err" [("k", some "v"), ("w", some "x")] ∧
    ([("k", some ("v" ++ "\n" ++ "w:x"))] : List (String × Option String)) ≠
      [("k", some "v"), ("w", some "x")] := by
  constructor
  · rfl
  · decide

/-- C2 amended: the decorated message always ends with the appended
`ErrorCode:` line followed by one `key:value` line per extra entry in decode
order, and provided the code and all keys and values are newline-free and
keys are colon-free, re-parsing the suffix recovers the code and the
(formatted) extra entries exactly. -/
theorem c2_roundtrip_amended (msg codeStr : String)
    (extra : List (String × Option String)) :
    decorateMessage msg codeStr extra = msg ++ suffixOf codeStr extra ∧
    (unambiguousSuffix codeStr extra →
      reparseSuffix (suffixOf codeStr extra).data =
        some (codeStr.data,
          extra.map (fun kv => (kv.1.data, (pyFormatOpt kv.2).data)))) := by
  refine ⟨decorate_eq_suffix msg codeStr extra, ?_⟩
  rintro ⟨hcode, hextra⟩
  have hpre : '\n' ∉ "ErrorCode:".data ++ codeStr.data := by
    simp only [List.mem_append, not_or]
    exact ⟨by decide, hcode⟩
  have hsplit : splitOnChar '\n' (suffixOf codeStr extra).data =
      [] :: ("ErrorCode:".data ++ codeStr.data) :: extra.map lineChars := by
    rw [suffixOf_data]
    rw [splitOnChar_cons, if_pos rfl]
    rw [splitOnChar_flatten extra hextra _ hpre]
  unfold reparseSuffix
  rw [hsplit]
  show (if "ErrorCode:".data.isPrefixOf ("ErrorCode:".data ++ codeStr.data) then
      match parseKVLines (extra.map lineChars) with
      | some entries =>
        some (("ErrorCode:".data ++ codeStr.data).drop 10, entries)
      | none => none
    else none) = _
  rw [if_pos (isPrefixOf_append "ErrorCode:".data codeStr.data)]
  rw [parseKVLines_map extra hextra]
  rw [show (10 : Nat) = "ErrorCode:".data.length from rfl, List.drop_left]

/-- Witness for C2 amended at a concrete well-formed code and entry list. -/
theorem c2_roundtrip_witness :
    reparseSuffix (suffixOf "OutOfRangeInput" [("position", some "42")]).data =
      some ("OutOfRangeInput".data, [("position".data, "42".data)]) :=
  (c2_roundtrip_amended "msg" "OutOfRangeInput" [("position", some "42")]).2
    (by decide)

/-- C3 counterexample: a decoded error whose message contains the fragment
`specified resource name contains invalid characters` but not the full
source fragment beginning with `The ` matches the claim premise, yet for the
length-2 name `ab` no branch of `_validate_tablename_error` fires and no
validation failure is raised. -/
theorem c3_storage_validation_counterexample :
    decodeError ⟨some "InvalidResourceName", .decodeFail⟩
        (Json.str "specified resource name contains invalid characters") none =
      .ok ⟨.httpResponseError,
           "specified resource name contains invalid characters" ++
             "\nErrorCode:InvalidResourceName",
           .enumCode "InvalidResourceName", []⟩ ∧
    containsSub ("specified resource name contains invalid characters" ++
        "\nErrorCode:InvalidResourceName")
      "specified resource name contains invalid characters" = true ∧
    codeEqStr (ErrCode.enumCode "InvalidResourceName") "InvalidResourceName" = true ∧
    ("ab" : String).length = 2 ∧
    validateTablenameError
      ⟨.httpResponseError,
       "specified resource name contains invalid characters" ++
         "\nErrorCode:InvalidResourceName",
       .enumCode "InvalidResourceName", []⟩ "ab" = false := by
  refine ⟨rfl, ?_, rfl, rfl, ?_⟩
  · decide
  · decide

/-- C3 amended: for a decoded error with code `InvalidResourceName` whose
message contains `The specified resource name contains invalid characters`
(or the misspelled source variant `The specifed ...`), validation fails
exactly when the name fails the storage regex (which, via the Python `$`
semantics, also admits a valid name followed by one trailing newline); in
particular every length-2 name raises and every name fully matching
`[a-zA-Z][a-zA-Z0-9]{2,62}` does not. -/
theorem c3_storage_validation_amended (d : DecodedError) (name : String)
    (hc : codeEqStr d.errorCode "InvalidResourceName" = true)
    (hm : containsSub d.message
        "The specified resource name contains invalid characters" = true ∨
      containsSub d.message
        "The specifed resource name contains invalid characters" = true) :
    (validateTablenameError d name = true ↔ storageMatch name = false) ∧
    (name.length = 2 → validateTablenameError d name = true) ∧
    (storageCore name.data = true → validateTablenameError d name = false) := by
  have key : validateTablenameError d name = !storageMatch name := by
    unfold validateTablenameError
    rcases hm with h | h
    · simp [hc, h, validateStorageTablename]
    · cases h1 : containsSub d.message
          "The specified resource name contains invalid characters" with
      | true => simp [hc, h1, validateStorageTablename]
      | false => simp [hc, h, h1, validateStorageTablename]
  refine ⟨?_, ?_, ?_⟩
  · rw [key]
    cases hsm : storageMatch name <;> simp
  · intro hl
    have hlen : name.data.length = 2 := hl
    have hsm : storageMatch name = false := by
      cases hsm : storageMatch name with
      | false => rfl
      | true =>
        exfalso
        unfold storageMatch at hsm
        rw [Bool.or_eq_true] at hsm
        rcases hsm with h2 | h2
        · have := storageCore_length_ge h2
          omega
        · rw [Bool.and_eq_true] at h2
          have h4 := storageCore_length_ge h2.2
          have hd : name.data.dropLast.length = name.data.length - 1 :=
            List.length_dropLast _
          omega
    rw [key, hsm]
    rfl
  · intro hcore
    have hsm : storageMatch name = true := by
      unfold storageMatch
      rw [hcore]
      rfl
    rw [key, hsm]
    rfl

/-- Witness for C3 amended: with the exact source fragment in the message,
the length-2 name `ab` raises the storage validation failure. -/
theorem c3_storage_validation_witness :
    validateTablenameError
      ⟨.httpResponseError,
       "The specified resource name contains invalid characters" ++
         "\nErrorCode:InvalidResourceName",
       .enumCode "InvalidResourceName", []⟩ "ab" = true :=
  (c3_storage_validation_amended
    ⟨.httpResponseError,
     "The specified resource name contains invalid characters" ++
       "\nErrorCode:InvalidResourceName",
     .enumCode "InvalidResourceName", []⟩ "ab"
    (by decide) (Or.inl (by decide))).2.1 rfl

/-- C4: for a JSON `odata.error` envelope carrying `code`, `message.value`
and a sibling field, decoding does not record the sibling in the extra data:
the loop executes `info.tag` on the sibling key string and raises
`AttributeError`, contradicting the documented behavior. -/
theorem c4_json_sibling_code_bug :
    decodeError
      ⟨some "ResourceNotFound",
       .parsed (.pyJson (.obj [("odata.error", .obj
         [("code", .str "TableNotFound"),
          ("message", .obj [("value", .str "The table specified does not exist.")]),
          ("other", .str "info")])]))⟩
      (Json.str "m") none = .error .attributeError := rfl

/-- C5: decoding does raise on a response with an unparsable body and no
supplied message: the `error_message += ...` statement applies `+` to `None`
and a string, raising an uncaught `TypeError`, contradicting the documented
never-raise contract. -/
theorem c5_none_message_code_bug :
    decodeError ⟨some "TableNotFound", .decodeFail⟩ Json.null none =
      .error .typeError := rfl

/-- C6 counterexample: for an XML body whose only direct child is a `code`
element, the claim says nothing else contributes; in fact `error_body.iter()`
also visits the root element (tag `error`) and the nested grandchild (tag
`nested`), both of which land in the extra data. -/
theorem c6_xml_iteration_counterexample :
    decodeBody (.parsed (.pyXml (.mk "error" (some "roottext")
        [.mk "code" (some "TableNotFound") [.mk "nested" (some "x") []]])))
        (Json.str "H") (Json.str "m") =
      .ok (Json.str "TableNotFound", Json.str "m",
           [("error", some "roottext"), ("nested", some "x")]) ∧
    (XmlElem.mk "error" (some "roottext")
        [.mk "code" (some "TableNotFound")
          [.mk "nested" (some "x") []]]).children.map XmlElem.tag = ["code"] :=
  ⟨rfl, rfl⟩

/-- C6 amended: for an XML body with at least one child element, decoding
iterates the whole element tree in document order — the root element itself
followed by the full preorder traversal of every child subtree — applying
the tag rules to each visited element; the keys of the resulting extra data
are exactly the tags of the visited elements whose tag contains neither
`code` nor `message` case-insensitively. -/
theorem c6_xml_iteration_amended (x : XmlElem) (code0 msg0 : Json)
    (h : x.children.isEmpty = false) :
    decodeBody (.parsed (.pyXml x)) code0 msg0 =
      .ok (xmlFold (xmlIter x) code0 msg0 []) ∧
    xmlIter x = x :: xmlIterList x.children ∧
    (∀ e ∈ xmlIter x, xmlOther e = true →
      e.tag ∈ (xmlFold (xmlIter x) code0 msg0 []).2.2.map Prod.fst) ∧
    (∀ k ∈ (xmlFold (xmlIter x) code0 msg0 []).2.2.map Prod.fst,
      ∃ e, e ∈ xmlIter x ∧ xmlOther e = true ∧ e.tag = k) := by
  refine ⟨?_, ?_, ?_, ?_⟩
  · have heq : decodeBody (.parsed (.pyXml x)) code0 msg0 =
        if x.children.isEmpty then .ok (code0, msg0, [])
        else .ok (xmlFold (xmlIter x) code0 msg0 []) := rfl
    rw [heq]
    simp [h]
  · cases x
    rfl
  · intro e he ho
    exact xmlFold_keys_of_mem _ _ _ _ e he ho
  · intro k hk
    rcases xmlFold_keys_sub _ _ _ _ k hk with h2 | h2
    · simp at h2
    · exact h2

/-- Witness for C6 amended at a concrete two-element tree. -/
theorem c6_xml_iteration_witness :
    decodeBody (.parsed (.pyXml (.mk "error" none [.mk "pos" (some "3") []])))
        Json.null (Json.str "m") =
      .ok (xmlFold (xmlIter (.mk "error" none [.mk "pos" (some "3") []]))
        Json.null (Json.str "m") []) :=
  (c6_xml_iteration_amended (.mk "error" none [.mk "pos" (some "3") []])
    Json.null (Json.str "m") rfl).1

/-- C7 counterexample: for the cosmos `BadRequest` signature, the name made
of 254 `a` characters followed by one newline has length 255, yet the
validator raises nothing: the Python `$` also matches just before a terminal
newline, so the name passes the cosmos regex. -/
theorem c7_cosmos_length_counterexample :
    decodeError ⟨some "BadRequest", .decodeFail⟩
        (Json.str "The input name is invalid.") none =
      .ok ⟨.httpResponseError,
           "The input name is invalid." ++ "\nErrorCode:BadRequest",
           .rawCode (.str "BadRequest"), []⟩ ∧
    (⟨List.replicate 254 'a' ++ ['\n']⟩ : String).length = 255 ∧
    validateTablenameError
        ⟨.httpResponseError,
         "The input name is invalid." ++ "\nErrorCode:BadRequest",
         .rawCode (.str "BadRequest"), []⟩
        ⟨List.replicate 254 'a' ++ ['\n']⟩ = false := by
  refine ⟨rfl, by decide, by decide⟩

/-- C7 amended: for a decoded error with code `BadRequest` whose message
contains `The input name is invalid.`, no validation failure is raised
exactly when the name satisfies the cosmos grammar (0–253 characters outside
the forbidden set followed by one character that is also not a space),
optionally followed by one terminal newline admitted by the Python `$`; in
particular a name of length at least 255 that passes must be a grammar-valid
254-character name plus a trailing newline. -/
theorem c7_cosmos_validation_amended (d : DecodedError) (name : String)
    (hc : codeEqStr d.errorCode "BadRequest" = true)
    (hm : containsSub d.message "The input name is invalid." = true) :
    (validateTablenameError d name = false ↔
      (cosmosGrammar name.data ∨
        ∃ w, name.data = w ++ ['\n'] ∧ cosmosGrammar w)) ∧
    (255 ≤ name.length → validateTablenameError d name = false →
      ∃ w, name.data = w ++ ['\n'] ∧ cosmosGrammar w ∧ w.length = 254) := by
  have h1 := codeEqStr_excl d.errorCode hc
    (by decide : "BadRequest" ≠ "InvalidResourceName")
  have h2 := codeEqStr_excl d.errorCode hc
    (by decide : "BadRequest" ≠ "OutOfRangeInput")
  have h3 := codeEqStr_excl d.errorCode hc
    (by decide : "BadRequest" ≠ "InternalServerError")
  have key : validateTablenameError d name = !cosmosMatch name := by
    unfold validateTablenameError
    simp [h1, h2, h3, hc, hm, validateCosmosTablename]
  constructor
  · rw [key, Bool.not_eq_false']
    exact cosmosMatch_iff
  · intro hlen hval
    rw [key, Bool.not_eq_false'] at hval
    have hlen2 : name.data.length = name.length := rfl
    rcases cosmosMatch_iff.mp hval with hg | ⟨w, hw, hg⟩
    · exfalso
      have hle := cosmosGrammar_length hg
      omega
    · refine ⟨w, hw, hg, ?_⟩
      have hle := cosmosGrammar_length hg
      have hsum : name.data.length = w.length + 1 := by
        rw [hw]
        simp
      omega

/-- Witness for C7 amended: the grammar-valid name `tbl` raises nothing. -/
theorem c7_cosmos_validation_witness :
    validateTablenameError
      ⟨.httpResponseError,
       "The input name is invalid." ++ "\nErrorCode:BadRequest",
       .rawCode (.str "BadRequest"), []⟩ "tbl" = false :=
  (c7_cosmos_validation_amended
    ⟨.httpResponseError,
     "The input name is invalid." ++ "\nErrorCode:BadRequest",
     .rawCode (.str "BadRequest"), []⟩ "tbl"
    (by decide) (by decide)).1.mpr
    (Or.inl ⟨['t', 'b'], 'l', rfl, by decide, by decide, by decide⟩)

/-- C8: the extracted transaction index is computed by splitting the message
on the first colon and parsing the left segment as a Python integer,
defaulting to 0 on parse failure; `3:Entity already exists.` yields 3 and a
message with no parseable leading integer yields 0. -/
theorem c8_extract_index_confirmed :
    (∀ s : String, extractIndex (Json.str s) = specExtractIndex s) ∧
    extractIndex (Json.str "3:Entity already exists.") = 3 ∧
    (∀ s : String, pyInt (splitLeft s) = none →
      extractIndex (Json.str s) = 0) := by
  refine ⟨?_, rfl, ?_⟩
  · intro s
    cases h : pyInt (splitLeft s) <;>
      simp [extractIndex, specExtractIndex, h]
  · intro s h
    simp [extractIndex, h]

/-- Witness for C8 at a message with no parseable leading integer. -/
theorem c8_extract_index_witness :
    extractIndex (Json.str "no index") = 0 :=
  c8_extract_index_confirmed.2.2 "no index" rfl

/-- C9 counterexample: a transaction error built from the message `-1:fail`
with no explicit index has index -1, a negative integer. -/
theorem c9_nonnegative_counterexample :
    transactionIndex Option.none (Json.str "-1:fail") = -1 ∧
    ¬(0 ≤ transactionIndex Option.none (Json.str "-1:fail")) := by
  constructor
  · decide
  · decide

/-- C9 amended: the index of a transaction error built from a message with
no explicit index equals the Python integer parsed from the prefix before
the first colon (0 on parse failure); it is non-negative whenever that
prefix does not parse as a negative integer. -/
theorem c9_index_amended (s : String) :
    transactionIndex Option.none (Json.str s) = specExtractIndex s ∧
    ((∀ n : Int, pyInt (splitLeft s) = some n → 0 ≤ n) →
      0 ≤ transactionIndex Option.none (Json.str s)) := by
  have h0 : transactionIndex Option.none (Json.str s) =
      extractIndex (Json.str s) := rfl
  constructor
  · rw [h0]
    cases h : pyInt (splitLeft s) <;>
      simp [extractIndex, specExtractIndex, h]
  · intro hpos
    rw [h0]
    cases h : pyInt (splitLeft s) with
    | none => simp [extractIndex, h]
    | some n =>
      have hn := hpos n h
      simpa [extractIndex, h] using hn

/-- Witness for C9 amended at the message `7:x`. -/
theorem c9_index_witness :
    0 ≤ transactionIndex Option.none (Json.str "7:x") :=
  (c9_index_amended "7:x").2 (fun n hn => by
    have h7 : pyInt (splitLeft "7:x") = some 7 := rfl
    rw [h7] at hn
    injection hn with h
    omega)

/-- C10: when the incoming error object has no `response` attribute,
`_process_table_error` re-raises the original error unchanged, with no
decoding, classification or name validation, whatever the table name. -/
theorem c10_no_response_confirmed (e : StorageError) (t : Option String)
    (h : e.response = none) : processTableError e t = .raisesOriginal := by
  obtain ⟨r, m⟩ := e
  cases r with
  | none => rfl
  | some resp => simp at h

/-- Witness for C10 at a concrete error object without a response. -/
theorem c10_no_response_witness :
    processTableError ⟨none, Json.str "boom"⟩ (some "tbl") = .raisesOriginal :=
  c10_no_response_confirmed ⟨none, Json.str "boom"⟩ (some "tbl") rfl

end AzureTables
